import Mathlib

/-!
Shallow embedding of the streaming PDF reader of `node-pdf2img`
(`packages/native-renderer/src/stream_reader.rs` and the session registry and
completion entrypoint of `packages/native-renderer/src/lib.rs`).

Modelling conventions:
* `HashMap` values become association lists (`List (Nat × _)`); `HashMap.insert`
  is modelled by consing the new pair onto the list with the old binding
  filtered out, `HashMap.remove` by filtering, `HashMap.get_mut` by an
  in-place `map`.  Iteration order of the hash map is arbitrary; the list
  order stands in for it.
* `u64` quantities that are only ever incremented by one per operation
  (`access_counter`, the `StreamerStats` counters, byte counts and file
  offsets) are modelled as unbounded `Nat`: their overflow would need more
  than `2^32` sequential operations on a single session.  Machine-width
  behaviour that is reachable in a single call is modelled exactly:
  the `as u32` truncation in `read`, the `u16` wraparound of the request
  sequence, the `u32` shift/or composition of request ids, the `& 0xFFFF`
  mask of task ids and the `as i64` casts in `seek`.
* The `mpsc` channel of a pending request is modelled by a fresh channel
  number (`next_channel`); `sender.send` is modelled by emitting the pair
  `(channel, result)`.  A blocking `recv_timeout` is modelled by an oracle
  (`FetchEnv.delivery`): `none` means no completion ever arrived and the
  30-second bound expired, `some r` means a completion `r` was delivered
  into the slot (by `complete_request`, which also removes the slot).
* Rust panics (out-of-range slice indexing) are modelled as explicit
  `panicked` outcomes.
-/

namespace NodePdf2Img

/-- `CACHE_BLOCK_SIZE`: size of a cache block, 256 KiB. -/
def CACHE_BLOCK_SIZE : Nat := 256 * 1024

/-- `MAX_CACHE_BLOCKS`: maximal number of blocks kept in the cache. -/
def MAX_CACHE_BLOCKS : Nat := 64

/-- Timeout in seconds passed to `recv_timeout` in `fetch_block`
(`Duration::from_secs(30)`). -/
def FETCH_TIMEOUT_SECS : Nat := 30

/-- A cache entry: the block data and its LRU stamp. -/
structure CacheEntry where
  data : List Nat
  access_order : Nat
deriving DecidableEq

/-- `StreamerStats`: monotone diagnostic counters. -/
structure StreamerStats where
  total_requests : Nat
  cache_hits : Nat
  cache_misses : Nat
  total_bytes_fetched : Nat
deriving DecidableEq

/-- The all-zero initial statistics (`StreamerStats::default()`). -/
def StreamerStats.init : StreamerStats := ⟨0, 0, 0, 0⟩

/-- The result a completion delivers into a pending slot
(`Result<Vec<u8>, String>`). -/
inductive FetchReply where
  | ok (data : List Nat)
  | error (msg : String)
deriving DecidableEq

deriving instance DecidableEq for Except

/-- `SharedState` with the mutexes flattened away.  `pending` maps a request
id to the channel number of its one-shot sender; `next_channel` models the
allocation of fresh `mpsc` channels. -/
structure SharedState where
  task_id : Nat
  cache : List (Nat × CacheEntry)
  access_counter : Nat
  stats : StreamerStats
  pending : List (Nat × Nat)
  next_request_seq : Nat
  next_channel : Nat
deriving DecidableEq

/-- `SharedState::new(task_id)`. -/
def SharedState.new (task_id : Nat) : SharedState :=
  ⟨task_id, [], 0, StreamerStats.init, [], 0, 0⟩

/-- First value bound to key `k` in an association list (`HashMap` get). -/
def lookupK {α : Type} : List (Nat × α) → Nat → Option α
  | [], _ => none
  | p :: rest, k => if p.1 = k then some p.2 else lookupK rest k

/-- Drop every binding of key `k` (`HashMap` remove; on a well-formed map
exactly one binding is dropped). -/
def removeK {α : Type} (l : List (Nat × α)) (k : Nat) : List (Nat × α) :=
  l.filter (fun p => p.1 != k)

/-- Replace the value bound to `k` in place (`HashMap` get_mut + assignment). -/
def updateK {α : Type} (l : List (Nat × α)) (k : Nat) (v : α) : List (Nat × α) :=
  l.map (fun p => if p.1 = k then (k, v) else p)

/-- `SharedState::next_id`: post-increment the 16-bit sequence and compose
the `u32` request id as `(task_id << 16) | seq`. -/
def SharedState.next_id (s : SharedState) : Nat × SharedState :=
  let current_seq := s.next_request_seq
  ((s.task_id <<< 16) % 2 ^ 32 ||| current_seq,
   { s with next_request_seq := (current_seq + 1) % 2 ^ 16 })

/-- `SharedState::register_request`: bind the request id to its sender. -/
def SharedState.register_request (s : SharedState) (request_id chan : Nat) :
    SharedState :=
  { s with pending := (request_id, chan) :: removeK s.pending request_id }

/-- `SharedState::complete_request`: if a sender is registered for the id,
remove it and send the result into it (the emitted `(channel, result)` pairs
are returned); otherwise do nothing. -/
def SharedState.complete_request (s : SharedState) (request_id : Nat)
    (data : FetchReply) : SharedState × List (Nat × FetchReply) :=
  match lookupK s.pending request_id with
  | some sender => ({ s with pending := removeK s.pending request_id }, [(sender, data)])
  | none => (s, [])

/-- `JsFileStreamer::cache_block_offset`. -/
def cache_block_offset (offset : Nat) : Nat :=
  offset / CACHE_BLOCK_SIZE * CACHE_BLOCK_SIZE

/-- `JsFileStreamer::read_from_cache`: on a stored block, bump its LRU stamp;
return data only when at least one byte is available at the offset, otherwise
report a miss.  `available` uses `saturating_sub`, which is `Nat` subtraction. -/
def read_from_cache (s : SharedState) (offset size : Nat) :
    Option (List Nat) × SharedState :=
  let block_offset := cache_block_offset offset
  match lookupK s.cache block_offset with
  | none => (none, s)
  | some entry =>
    let counter := s.access_counter + 1
    let cache2 := updateK s.cache block_offset ⟨entry.data, counter⟩
    let offset_in_block := offset - block_offset
    let available := entry.data.length - offset_in_block
    let read_size := min size available
    if 0 < read_size then
      (some (List.take read_size (List.drop offset_in_block entry.data)),
       { s with cache := cache2, access_counter := counter,
                stats := { s.stats with cache_hits := s.stats.cache_hits + 1 } })
    else
      (none, { s with cache := cache2, access_counter := counter })

/-- First entry with minimal `access_order`
(`iter().min_by_key(|(_, v)| v.access_order)`). -/
def minByAccess : List (Nat × CacheEntry) → Option (Nat × CacheEntry)
  | [] => none
  | p :: rest =>
    match minByAccess rest with
    | none => some p
    | some q => if q.2.access_order < p.2.access_order then some q else some p

/-- One pass of the eviction `while` loop of `write_to_cache`, with fuel;
the list length is enough fuel because every pass removes an entry. -/
def evictLoopAux : Nat → List (Nat × CacheEntry) → List (Nat × CacheEntry)
  | 0, c => c
  | fuel + 1, c =>
    if MAX_CACHE_BLOCKS ≤ c.length then
      match minByAccess c with
      | some p => evictLoopAux fuel (removeK c p.1)
      | none => c
    else c

/-- The eviction loop of `write_to_cache`: while at capacity, remove the
least recently used block. -/
def evictLoop (c : List (Nat × CacheEntry)) : List (Nat × CacheEntry) :=
  evictLoopAux c.length c

/-- `JsFileStreamer::write_to_cache`: evict to below capacity, then insert
the data at the block-aligned offset with a fresh `access_order`. -/
def write_to_cache (s : SharedState) (offset : Nat) (data : List Nat) :
    SharedState :=
  let block_offset := cache_block_offset offset
  let cache2 := evictLoop s.cache
  let counter := s.access_counter + 1
  { s with
    cache := (block_offset, ⟨data, counter⟩) :: removeK cache2 block_offset,
    access_counter := counter }

/-- Environment of one `fetch_block` call: whether the threadsafe-function
dispatch reports `Status::Ok`, and what (if anything) is delivered into the
pending slot before the 30 s bound expires. -/
structure FetchEnv where
  dispatch_ok : Bool
  delivery : Option FetchReply
deriving DecidableEq

/-- The outbound request passed to the JS fetcher. -/
structure BlockRequest where
  offset : Nat
  size : Nat
  request_id : Nat
deriving DecidableEq

/-- Result of `fetch_block` as seen by the caller.  `panicked` models the
out-of-range slice `data[offset_in_block..offset_in_block + read_size]` on
delivered data shorter than `offset_in_block`. -/
inductive FetchOutcome where
  | ok (data : List Nat)
  | shortRead (msg : String)
  | rejected (msg : String)
  | timedOut (secs : Nat) (msg : String)
  | panicked
deriving DecidableEq

/-- `JsFileStreamer::fetch_block`: cache lookup, miss accounting, the
block-aligned fetch window, ShortRead on an empty window, registration and
dispatch of the outbound request, the bounded wait, and the handling of the
delivered result (caching it and slicing out the requested sub-range).
Returns the outcome, the final shared state, and the outbound request that
was passed to the fetcher (`none` when no call was made). -/
def fetch_block (file_size : Nat) (s : SharedState) (offset size : Nat)
    (env : FetchEnv) : FetchOutcome × SharedState × Option BlockRequest :=
  let rc := read_from_cache s offset size
  match rc.1 with
  | some data => (FetchOutcome.ok data, rc.2, none)
  | none =>
    let s1 := rc.2
    let s2 := { s1 with stats := { s1.stats with
                  cache_misses := s1.stats.cache_misses + 1,
                  total_requests := s1.stats.total_requests + 1 } }
    let block_offset := cache_block_offset offset
    let remaining := file_size - block_offset
    let fetch_size := min CACHE_BLOCK_SIZE remaining
    if fetch_size = 0 then
      (FetchOutcome.shortRead ("fetch_size is 0"), s2, none)
    else
      let chan := s2.next_channel
      let s3 := { s2 with next_channel := chan + 1 }
      let idp := s3.next_id
      let request_id := idp.1
      let s5 := idp.2.register_request request_id chan
      let req : BlockRequest := ⟨block_offset, fetch_size, request_id⟩
      if env.dispatch_ok then
        match env.delivery with
        | none =>
          (FetchOutcome.timedOut FETCH_TIMEOUT_SECS ("Timeout waiting for JS response"),
           { s5 with pending := removeK s5.pending request_id }, some req)
        | some (FetchReply.error e) =>
          (FetchOutcome.rejected ("Failed to fetch block: " ++ e),
           { s5 with pending := removeK s5.pending request_id }, some req)
        | some (FetchReply.ok data) =>
          let s6 := { s5 with pending := removeK s5.pending request_id }
          let s7 := { s6 with stats := { s6.stats with
                        total_bytes_fetched := s6.stats.total_bytes_fetched + data.length } }
          let s8 := write_to_cache s7 block_offset data
          let offset_in_block := offset - block_offset
          let available := data.length - offset_in_block
          let read_size := min size available
          if offset_in_block + read_size ≤ data.length then
            (FetchOutcome.ok (List.take read_size (List.drop offset_in_block data)),
             s8, some req)
          else (FetchOutcome.panicked, s8, some req)
      else
        (FetchOutcome.rejected ("ThreadsafeFunction call failed"),
         { s5 with pending := removeK s5.pending request_id }, some req)

/-- Result of one adapter `read` call. -/
inductive ReadOutcome where
  | ok (bytes_read : Nat) (position : Nat) (buffer : List Nat)
  | ioError (msg : String)
  | panicked
deriving DecidableEq

/-- A `read` call together with the request it issued to the fetch bridge
(`none` when `fetch_block` was never called). -/
structure ReadResult where
  requested : Option (Nat × Nat)
  outcome : ReadOutcome
deriving DecidableEq

/-- The `Read::read` implementation of `JsFileStreamer`, with the fetch
bridge abstracted as a function `bridge offset size` (the source calls
`self.fetch_block(self.position, to_read)`).  `to_read` carries the `as u32`
truncation of the source.  The copy `buf[..bytes_read].copy_from_slice(..)`
panics when the bridge hands back more bytes than the buffer holds. -/
def readStep (file_size position : Nat) (buf : List Nat)
    (bridge : Nat → Nat → Except String (List Nat)) : ReadResult :=
  if file_size ≤ position then ⟨none, ReadOutcome.ok 0 position buf⟩
  else
    let remaining := file_size - position
    let to_read := min buf.length remaining % 2 ^ 32
    if to_read = 0 then ⟨none, ReadOutcome.ok 0 position buf⟩
    else
      match bridge position to_read with
      | Except.error e => ⟨some (position, to_read), ReadOutcome.ioError e⟩
      | Except.ok data =>
        if data.length ≤ buf.length then
          ⟨some (position, to_read),
           ReadOutcome.ok data.length (position + data.length)
             (data ++ List.drop data.length buf)⟩
        else ⟨some (position, to_read), ReadOutcome.panicked⟩

/-- `std::io::SeekFrom`. -/
inductive SeekFrom where
  | start (offset : Nat)
  | fromEnd (offset : Int)
  | current (offset : Int)
deriving DecidableEq

/-- The `as i64` reinterpretation of a `u64` value. -/
def u64_as_i64 (n : Nat) : Int :=
  if n % 2 ^ 64 < 2 ^ 63 then Int.ofNat (n % 2 ^ 64)
  else Int.ofNat (n % 2 ^ 64) - 2 ^ 64

/-- Two's-complement wraparound of an `i64` addition result. -/
def i64_wrap (x : Int) : Int := (x + 2 ^ 63) % 2 ^ 64 - 2 ^ 63

/-- The `Seek::seek` implementation of `JsFileStreamer`: compute the target
position in `i64` arithmetic, reject a negative target, otherwise store it
(`new_pos as u64` on a non-negative `i64` is `Int.toNat`). -/
def seek (file_size position : Nat) (pos : SeekFrom) : Except String Nat :=
  let new_pos : Int :=
    match pos with
    | SeekFrom.start offset => u64_as_i64 offset
    | SeekFrom.fromEnd offset => i64_wrap (u64_as_i64 file_size + offset)
    | SeekFrom.current offset => i64_wrap (u64_as_i64 position + offset)
  if new_pos < 0 then Except.error ("Seek to negative position")
  else Except.ok new_pos.toNat

/-- The seek target as the specification describes it: plain integer
arithmetic on `origin`/`offset`, with no machine-width reinterpretation.
Used only to compare `seek` against the spec text. -/
def seekSpec (file_size position : Nat) (pos : SeekFrom) : Int :=
  match pos with
  | SeekFrom.start offset => Int.ofNat offset
  | SeekFrom.fromEnd offset => Int.ofNat file_size + offset
  | SeekFrom.current offset => Int.ofNat position + offset

/-- Side conditions under which the `i64` arithmetic of `seek` coincides
with the plain integer arithmetic of `seekSpec`. -/
def SeekInRange (file_size position : Nat) (pos : SeekFrom) : Prop :=
  file_size < 2 ^ 63 ∧ position < 2 ^ 63 ∧
  match pos with
  | SeekFrom.start offset => offset < 2 ^ 63
  | SeekFrom.fromEnd offset =>
      -(2 ^ 63) ≤ Int.ofNat file_size + offset ∧ Int.ofNat file_size + offset < 2 ^ 63
  | SeekFrom.current offset =>
      -(2 ^ 63) ≤ Int.ofNat position + offset ∧ Int.ofNat position + offset < 2 ^ 63

/-- `next_task_id` of lib.rs: mask the global `u32` counter to 16 bits and
post-increment it (with `u32` wraparound). -/
def next_task_id (counter : Nat) : Nat × Nat :=
  (counter &&& 0xFFFF, (counter + 1) % 2 ^ 32)

/-- The process-wide model: the session registry `GLOBAL_STREAM_STATES`
plus the log of all `(channel, result)` messages sent into pending slots. -/
structure GlobalModel where
  sessions : List (Nat × SharedState)
  sent : List (Nat × FetchReply)
deriving DecidableEq

/-- `complete_stream_request` of lib.rs: route by the high 16 bits of the
request id; if the session exists, build the result from `data`/`error` and
forward it to `SharedState::complete_request`; otherwise do nothing.  The
entrypoint always returns success. -/
def complete_stream_request (g : GlobalModel) (request_id : Nat)
    (data : Option (List Nat)) (error : Option String) :
    GlobalModel × Except String Unit :=
  let task_id := request_id >>> 16
  match lookupK g.sessions task_id with
  | none => (g, Except.ok ())
  | some shared_state =>
    let result : FetchReply :=
      match data, error with
      | some buffer, _ => FetchReply.ok buffer
      | none, some err => FetchReply.error err
      | none, none => FetchReply.error ("No data or error provided")
    let r := shared_state.complete_request request_id result
    ({ sessions := updateK g.sessions task_id r.1, sent := g.sent ++ r.2 },
     Except.ok ())

/-- Cache-level operations: a `write_to_cache` insert or a `read_from_cache`
lookup (the only two operations that touch the block cache). -/
inductive CacheOp where
  | insert (offset : Nat) (data : List Nat)
  | lookup (offset size : Nat)

/-- Apply one cache operation to the shared state. -/
def applyCacheOp (s : SharedState) : CacheOp → SharedState
  | CacheOp.insert offset data => write_to_cache s offset data
  | CacheOp.lookup offset size => (read_from_cache s offset size).2

/-- Run a sequence of cache operations. -/
def runCacheOps (s : SharedState) (ops : List CacheOp) : SharedState :=
  ops.foldl applyCacheOp s

/-- Boolean bound on the data size of an insert operation. -/
def insertLenOk (op : CacheOp) : Bool :=
  match op with
  | CacheOp.insert _ data => decide (data.length ≤ CACHE_BLOCK_SIZE)
  | CacheOp.lookup _ _ => true

/-- One `fetch_block` call: offset, size and its environment. -/
structure FetchOp where
  offset : Nat
  size : Nat
  env : FetchEnv
deriving DecidableEq

/-- Apply one `fetch_block` call to the shared state. -/
def applyFetchOp (file_size : Nat) (s : SharedState) (op : FetchOp) : SharedState :=
  (fetch_block file_size s op.offset op.size op.env).2.1

/-- Run a sequence of `fetch_block` calls from a fresh session. -/
def runFetches (file_size task_id : Nat) (ops : List FetchOp) : SharedState :=
  ops.foldl (applyFetchOp file_size) (SharedState.new task_id)

/-- Structural invariant of the block cache: the keys are distinct (it models
a `HashMap`) and no stored LRU stamp exceeds the access counter. -/
def CacheInv (s : SharedState) : Prop :=
  (s.cache.map Prod.fst).Nodup ∧
  ∀ p ∈ s.cache, p.2.access_order ≤ s.access_counter

/-- What an insert does when the cache is at capacity: some entry with the
globally minimal `access_order` is the victim, the insert removes exactly
that entry (and any stale binding of the inserted key) and conses the new
block with the fresh stamp `access_counter + 1`, strictly larger than the
stamp of every entry present before the insert. -/
def EvictionSpec (s : SharedState) (offset : Nat) (data : List Nat) : Prop :=
  ∃ victim,
    minByAccess s.cache = some victim ∧
    victim ∈ s.cache ∧
    (∀ q ∈ s.cache,
      victim.2.access_order ≤ q.2.access_order ∧
      q.2.access_order < (write_to_cache s offset data).access_counter) ∧
    (write_to_cache s offset data).cache =
      (cache_block_offset offset, ⟨data, s.access_counter + 1⟩) ::
        removeK (removeK s.cache victim.1) (cache_block_offset offset)

/-- What happens when the cache holds a block at the aligned offset whose
data is too short to cover the requested offset: the lookup is a miss (no
hit counted, but the stored block's LRU stamp is bumped to the fresh
counter), and the subsequent fetch counts a cache miss and a total request
and dispatches an outbound request for that same block with the usual
block-aligned window. -/
def MissOnShortBlock (file_size : Nat) (s : SharedState) (offset size : Nat)
    (env : FetchEnv) (entry : CacheEntry) : Prop :=
  (read_from_cache s offset size).1 = none ∧
  ((read_from_cache s offset size).2).stats.cache_hits = s.stats.cache_hits ∧
  lookupK ((read_from_cache s offset size).2).cache (cache_block_offset offset) =
    some ⟨entry.data, s.access_counter + 1⟩ ∧
  ((read_from_cache s offset size).2).access_counter = s.access_counter + 1 ∧
  ((fetch_block file_size s offset size env).2.1).stats.cache_misses =
    s.stats.cache_misses + 1 ∧
  ((fetch_block file_size s offset size env).2.1).stats.total_requests =
    s.stats.total_requests + 1 ∧
  ∃ rid, (fetch_block file_size s offset size env).2.2 =
    some ⟨cache_block_offset offset,
      min CACHE_BLOCK_SIZE (file_size - cache_block_offset offset), rid⟩ ∧
    0 < min CACHE_BLOCK_SIZE (file_size - cache_block_offset offset)

/-- No pending slot is registered for the request id: either the session
addressed by the high 16 bits is absent from the registry, or it holds no
sender for the id (already delivered, or deregistered by timeout). -/
def NoSlot (g : GlobalModel) (request_id : Nat) : Prop :=
  ∀ st, lookupK g.sessions (request_id >>> 16) = some st →
    lookupK st.pending request_id = none

/-! ### Association-list lemmas -/

theorem lookupK_mem {α : Type} {l : List (Nat × α)} {k : Nat} {v : α}
    (h : lookupK l k = some v) : (k, v) ∈ l := by
  induction l with
  | nil => simp [lookupK] at h
  | cons p rest ih =>
    rw [lookupK] at h
    split at h
    · rename_i hp
      injection h with h2
      subst h2
      subst hp
      simp
    · exact List.mem_cons_of_mem _ (ih h)

theorem mem_removeK {α : Type} {l : List (Nat × α)} {k : Nat} {p : Nat × α}
    (h : p ∈ removeK l k) : p ∈ l :=
  List.mem_of_mem_filter h

theorem removeK_key_ne {α : Type} {l : List (Nat × α)} {k : Nat} {p : Nat × α}
    (h : p ∈ removeK l k) : p.1 ≠ k := by
  have h2 := List.of_mem_filter h
  simpa using h2

theorem removeK_map_fst_sublist {α : Type} (l : List (Nat × α)) (k : Nat) :
    ((removeK l k).map Prod.fst).Sublist (l.map Prod.fst) :=
  List.Sublist.map Prod.fst (List.filter_sublist l)

theorem lookupK_eq_none {α : Type} {l : List (Nat × α)} {k : Nat} :
    lookupK l k = none ↔ k ∉ l.map Prod.fst := by
  induction l with
  | nil => simp [lookupK]
  | cons p rest ih =>
    rw [lookupK]
    by_cases hp : p.1 = k
    · simp [hp]
    · rw [if_neg hp, ih]
      simp only [List.map_cons, List.mem_cons, not_or]
      constructor
      · intro h
        exact ⟨fun hh => hp hh.symm, h⟩
      · intro h
        exact h.2

theorem lookupK_removeK_self {α : Type} (l : List (Nat × α)) (k : Nat) :
    lookupK (removeK l k) k = none := by
  rw [lookupK_eq_none]
  intro hmem
  rcases List.mem_map.1 hmem with ⟨p, hp, hfst⟩
  exact removeK_key_ne hp hfst

theorem lookupK_removeK_ne {α : Type} (l : List (Nat × α)) {k k2 : Nat}
    (h : k2 ≠ k) : lookupK (removeK l k) k2 = lookupK l k2 := by
  induction l with
  | nil => rfl
  | cons p rest ih =>
    by_cases hp : p.1 = k
    · have h1 : removeK (p :: rest) k = removeK rest k := by
        simp [removeK, List.filter_cons, hp]
      rw [h1, ih, lookupK, if_neg (by rw [hp]; exact fun hh => h hh.symm)]
    · have h1 : removeK (p :: rest) k = p :: removeK rest k := by
        simp [removeK, List.filter_cons, hp]
      rw [h1, lookupK, lookupK]
      by_cases hq : p.1 = k2
      · rw [if_pos hq, if_pos hq]
      · rw [if_neg hq, if_neg hq, ih]

theorem removeK_eq_self {α : Type} {l : List (Nat × α)} {k : Nat}
    (h : k ∉ l.map Prod.fst) : removeK l k = l := by
  induction l with
  | nil => rfl
  | cons p rest ih =>
    simp only [List.map_cons, List.mem_cons, not_or] at h
    have hp : (p.1 != k) = true := by
      simpa using fun hh => h.1 (Eq.symm hh)
    simp only [removeK, List.filter_cons, hp, if_pos]
    have h2 := ih h.2
    simp only [removeK] at h2
    rw [h2]

theorem removeK_length_nodup {α : Type} {l : List (Nat × α)} {k : Nat} {v : α}
    (hnd : (l.map Prod.fst).Nodup) (hm : (k, v) ∈ l) :
    (removeK l k).length + 1 = l.length := by
  induction l with
  | nil => cases hm
  | cons p rest ih =>
    simp only [List.map_cons, List.nodup_cons] at hnd
    rcases List.mem_cons.1 hm with heq | hmem
    · have hp1 : p.1 = k := by rw [← heq]
      have hrest : removeK rest k = rest := by
        apply removeK_eq_self
        rw [← hp1]
        exact hnd.1
      have hstep : removeK (p :: rest) k = removeK rest k := by
        simp [removeK, List.filter_cons, hp1]
      rw [hstep, hrest]
      simp
    · have hp1 : p.1 ≠ k := by
        intro hh
        exact hnd.1 (hh ▸ List.mem_map_of_mem Prod.fst hmem)
      have hstep : removeK (p :: rest) k = p :: removeK rest k := by
        simp [removeK, List.filter_cons, hp1]
      rw [hstep]
      have h2 := ih hnd.2 hmem
      simp only [List.length_cons]
      omega

theorem removeK_length_lt {α : Type} {l : List (Nat × α)} {k : Nat} {v : α}
    (hm : (k, v) ∈ l) : (removeK l k).length < l.length := by
  induction l with
  | nil => cases hm
  | cons p rest ih =>
    by_cases hp : p.1 = k
    · have hstep : removeK (p :: rest) k = removeK rest k := by
        simp [removeK, List.filter_cons, hp]
      rw [hstep]
      have h2 : (removeK rest k).length ≤ rest.length := by
        simpa [removeK] using List.length_filter_le (fun p => p.1 != k) rest
      simp only [List.length_cons]
      omega
    · have hstep : removeK (p :: rest) k = p :: removeK rest k := by
        simp [removeK, List.filter_cons, hp]
      rcases List.mem_cons.1 hm with heq | hmem
      · exact absurd (by rw [← heq]) hp
      · rw [hstep]
        have h2 := ih hmem
        simp only [List.length_cons]
        omega

theorem updateK_map_fst {α : Type} (l : List (Nat × α)) (k : Nat) (v : α) :
    (updateK l k v).map Prod.fst = l.map Prod.fst := by
  induction l with
  | nil => rfl
  | cons p rest ih =>
    simp only [updateK, List.map_cons] at ih ⊢
    by_cases hp : p.1 = k
    · simp [hp, ih]
    · simp [hp, ih]

theorem mem_updateK {α : Type} {l : List (Nat × α)} {k : Nat} {v : α}
    {p : Nat × α} (h : p ∈ updateK l k v) : p ∈ l ∨ p = (k, v) := by
  rcases List.mem_map.1 h with ⟨q, hq, hfq⟩
  by_cases hk : q.1 = k
  · right
    rw [← hfq]
    simp [hk]
  · left
    rw [← hfq]
    simpa [hk] using hq

theorem lookupK_updateK_self {α : Type} {l : List (Nat × α)} {k : Nat} {v w : α}
    (h : lookupK l k = some w) : lookupK (updateK l k v) k = some v := by
  induction l with
  | nil => simp [lookupK] at h
  | cons p rest ih =>
    rw [lookupK] at h
    show lookupK ((if p.1 = k then (k, v) else p) :: updateK rest k v) k = some v
    by_cases hp : p.1 = k
    · rw [if_pos hp, lookupK, if_pos rfl]
    · rw [if_neg hp] at h
      rw [if_neg hp, lookupK, if_neg hp]
      exact ih h

theorem lookupK_updateK_ne {α : Type} (l : List (Nat × α)) {k k2 : Nat} (v : α)
    (h : k2 ≠ k) : lookupK (updateK l k v) k2 = lookupK l k2 := by
  induction l with
  | nil => rfl
  | cons p rest ih =>
    show lookupK ((if p.1 = k then (k, v) else p) :: updateK rest k v) k2 =
      lookupK (p :: rest) k2
    by_cases hp : p.1 = k
    · rw [if_pos hp, lookupK, if_neg (fun hh => h hh.symm), lookupK,
        if_neg (by rw [hp]; exact fun hh => h (hh ▸ rfl))]
      exact ih
    · rw [if_neg hp, lookupK, lookupK]
      by_cases hq : p.1 = k2
      · rw [if_pos hq, if_pos hq]
      · rw [if_neg hq, if_neg hq, ih]

theorem updateK_eq_self_of_none {α : Type} {l : List (Nat × α)} {k : Nat} (v : α)
    (h : lookupK l k = none) : updateK l k v = l := by
  have hk := lookupK_eq_none.1 h
  induction l with
  | nil => rfl
  | cons p rest ih =>
    simp only [List.map_cons, List.mem_cons, not_or] at hk
    show (if p.1 = k then (k, v) else p) :: updateK rest k v = p :: rest
    rw [if_neg (fun hh => hk.1 (Eq.symm hh)),
      ih (lookupK_eq_none.2 hk.2) hk.2]

theorem updateK_eq_self {α : Type} {l : List (Nat × α)} {k : Nat} {v : α}
    (hnd : (l.map Prod.fst).Nodup) (h : lookupK l k = some v) :
    updateK l k v = l := by
  induction l with
  | nil => rfl
  | cons p rest ih =>
    simp only [List.map_cons, List.nodup_cons] at hnd
    rw [lookupK] at h
    show (if p.1 = k then (k, v) else p) :: updateK rest k v = p :: rest
    by_cases hp : p.1 = k
    · rw [if_pos hp] at h ⊢
      injection h with hv
      have h2 : updateK rest k v = rest := by
        apply updateK_eq_self_of_none
        apply lookupK_eq_none.2
        rw [← hp]
        exact hnd.1
      rw [h2, ← hp, ← hv]
    · rw [if_neg hp] at h ⊢
      rw [ih hnd.2 h]

/-! ### Lemmas about the LRU minimum and the eviction loop -/

theorem minByAccess_mem {c : List (Nat × CacheEntry)} {p : Nat × CacheEntry}
    (h : minByAccess c = some p) : p ∈ c := by
  induction c generalizing p with
  | nil => cases h
  | cons a rest ih =>
    rw [minByAccess] at h
    cases hr : minByAccess rest with
    | none =>
      simp only [hr] at h
      injection h with h2
      subst h2
      simp
    | some m =>
      simp only [hr] at h
      by_cases hlt : m.2.access_order < a.2.access_order
      · rw [if_pos hlt] at h
        injection h with h2
        subst h2
        exact List.mem_cons_of_mem _ (ih hr)
      · rw [if_neg hlt] at h
        injection h with h2
        subst h2
        simp

theorem minByAccess_isSome {c : List (Nat × CacheEntry)} (h : c ≠ []) :
    ∃ p, minByAccess c = some p := by
  cases c with
  | nil => exact absurd rfl h
  | cons a rest =>
    rw [minByAccess]
    cases minByAccess rest with
    | none => exact ⟨a, rfl⟩
    | some m =>
      show ∃ p,
        (if m.2.access_order < a.2.access_order then some m else some a) = some p
      by_cases hlt : m.2.access_order < a.2.access_order
      · rw [if_pos hlt]
        exact ⟨m, rfl⟩
      · rw [if_neg hlt]
        exact ⟨a, rfl⟩

theorem minByAccess_eq_none {c : List (Nat × CacheEntry)}
    (h : minByAccess c = none) : c = [] := by
  cases c with
  | nil => rfl
  | cons a rest =>
    rcases minByAccess_isSome (c := a :: rest) (by simp) with ⟨p, hp⟩
    rw [hp] at h
    cases h

theorem minByAccess_le {c : List (Nat × CacheEntry)} :
    ∀ {p : Nat × CacheEntry}, minByAccess c = some p →
      ∀ q ∈ c, p.2.access_order ≤ q.2.access_order := by
  induction c with
  | nil =>
    intro p h
    cases h
  | cons a rest ih =>
    intro p h r hr
    rw [minByAccess] at h
    cases hm : minByAccess rest with
    | none =>
      simp only [hm] at h
      injection h with h2
      subst h2
      have hnil := minByAccess_eq_none hm
      subst hnil
      rcases List.mem_cons.1 hr with heq | hmem
      · subst heq
        exact Nat.le_refl _
      · cases hmem
    | some m =>
      simp only [hm] at h
      rcases List.mem_cons.1 hr with heq | hmem
      · subst heq
        by_cases hlt : m.2.access_order < r.2.access_order
        · rw [if_pos hlt] at h
          injection h with h2
          subst h2
          exact Nat.le_of_lt hlt
        · rw [if_neg hlt] at h
          injection h with h2
          subst h2
          exact Nat.le_refl _
      · have hle := ih hm r hmem
        by_cases hlt : m.2.access_order < a.2.access_order
        · rw [if_pos hlt] at h
          injection h with h2
          subst h2
          exact hle
        · rw [if_neg hlt] at h
          injection h with h2
          subst h2
          exact Nat.le_trans (Nat.le_of_not_lt hlt) hle

theorem mem_evictLoopAux {fuel : Nat} {c : List (Nat × CacheEntry)}
    {p : Nat × CacheEntry} (h : p ∈ evictLoopAux fuel c) : p ∈ c := by
  induction fuel generalizing c with
  | zero => exact h
  | succ fuel ih =>
    rw [evictLoopAux] at h
    split at h
    · cases hm : minByAccess c with
      | none =>
        simp only [hm] at h
        exact h
      | some q =>
        simp only [hm] at h
        exact mem_removeK (ih h)
    · exact h

theorem evictLoopAux_map_fst_sublist (fuel : Nat) (c : List (Nat × CacheEntry)) :
    ((evictLoopAux fuel c).map Prod.fst).Sublist (c.map Prod.fst) := by
  induction fuel generalizing c with
  | zero => exact List.Sublist.refl _
  | succ fuel ih =>
    rw [evictLoopAux]
    split
    · cases hm : minByAccess c with
      | none => exact List.Sublist.refl _
      | some q => exact (ih (removeK c q.1)).trans (removeK_map_fst_sublist c q.1)
    · exact List.Sublist.refl _

theorem evictLoopAux_length (fuel : Nat) (c : List (Nat × CacheEntry)) :
    (evictLoopAux fuel c).length ≤ max (MAX_CACHE_BLOCKS - 1) (c.length - fuel) := by
  induction fuel generalizing c with
  | zero =>
    rw [evictLoopAux]
    exact le_max_of_le_right (by omega)
  | succ fuel ih =>
    rw [evictLoopAux]
    split
    · cases hm : minByAccess c with
      | none =>
        have hnil := minByAccess_eq_none hm
        subst hnil
        simp
      | some q =>
        have hmem : (q.1, q.2) ∈ c := minByAccess_mem hm
        have hlt := removeK_length_lt hmem
        have hih := ih (removeK c q.1)
        exact le_trans hih (max_le_max (le_refl _) (by omega))
    · exact le_max_of_le_left (by omega)

theorem evictLoop_length (c : List (Nat × CacheEntry)) :
    (evictLoop c).length ≤ MAX_CACHE_BLOCKS - 1 := by
  have h := evictLoopAux_length c.length c
  simpa [Nat.sub_self, evictLoop] using h

theorem evictLoopAux_of_lt {fuel : Nat} {c : List (Nat × CacheEntry)}
    (h : c.length < MAX_CACHE_BLOCKS) : evictLoopAux fuel c = c := by
  cases fuel with
  | zero => rfl
  | succ fuel => rw [evictLoopAux, if_neg (by omega)]

theorem evictLoop_at_cap {c : List (Nat × CacheEntry)} {p : Nat × CacheEntry}
    (hlen : c.length = MAX_CACHE_BLOCKS) (hnd : (c.map Prod.fst).Nodup)
    (hm : minByAccess c = some p) : evictLoop c = removeK c p.1 := by
  have hmem : (p.1, p.2) ∈ c := minByAccess_mem hm
  have hrk : (removeK c p.1).length + 1 = c.length := removeK_length_nodup hnd hmem
  have hc : c.length = 64 := hlen
  rw [evictLoop, hc, show (64 : Nat) = 63 + 1 from rfl, evictLoopAux,
    if_pos (by rw [hc]; decide)]
  simp only [hm]
  have hsmall : (removeK c p.1).length < 64 := by omega
  exact evictLoopAux_of_lt hsmall

/-! ### Preservation lemmas for the cache operations -/

theorem read_from_cache_map_fst (s : SharedState) (offset size : Nat) :
    ((read_from_cache s offset size).2).cache.map Prod.fst =
      s.cache.map Prod.fst := by
  simp only [read_from_cache]
  split
  · rfl
  · split
    · exact updateK_map_fst _ _ _
    · exact updateK_map_fst _ _ _

theorem read_from_cache_length (s : SharedState) (offset size : Nat) :
    ((read_from_cache s offset size).2).cache.length = s.cache.length := by
  have h := congrArg List.length (read_from_cache_map_fst s offset size)
  simpa using h

theorem read_from_cache_fields (s : SharedState) (offset size : Nat) :
    ((read_from_cache s offset size).2).pending = s.pending ∧
    ((read_from_cache s offset size).2).task_id = s.task_id ∧
    ((read_from_cache s offset size).2).next_request_seq = s.next_request_seq ∧
    ((read_from_cache s offset size).2).next_channel = s.next_channel ∧
    ((read_from_cache s offset size).2).stats.cache_misses =
      s.stats.cache_misses ∧
    ((read_from_cache s offset size).2).stats.total_requests =
      s.stats.total_requests ∧
    ((read_from_cache s offset size).2).stats.total_bytes_fetched =
      s.stats.total_bytes_fetched := by
  simp only [read_from_cache]
  split
  · exact ⟨rfl, rfl, rfl, rfl, rfl, rfl, rfl⟩
  · split
    · exact ⟨rfl, rfl, rfl, rfl, rfl, rfl, rfl⟩
    · exact ⟨rfl, rfl, rfl, rfl, rfl, rfl, rfl⟩

theorem read_from_cache_entries {s : SharedState} {offset size : Nat}
    {p : Nat × CacheEntry}
    (hp : p ∈ ((read_from_cache s offset size).2).cache) :
    p ∈ s.cache ∨
      ∃ e, lookupK s.cache (cache_block_offset offset) = some e ∧
        p = (cache_block_offset offset, ⟨e.data, s.access_counter + 1⟩) := by
  revert hp
  simp only [read_from_cache]
  split
  · intro hp
    exact Or.inl hp
  · rename_i e hl
    split
    · intro hp
      rcases mem_updateK hp with h | h
      · exact Or.inl h
      · exact Or.inr ⟨e, hl, h⟩
    · intro hp
      rcases mem_updateK hp with h | h
      · exact Or.inl h
      · exact Or.inr ⟨e, hl, h⟩

theorem cacheInv_read {s : SharedState} (offset size : Nat) (h : CacheInv s) :
    CacheInv ((read_from_cache s offset size).2) := by
  obtain ⟨hnd, hord⟩ := h
  simp only [CacheInv, read_from_cache]
  split
  · exact ⟨hnd, hord⟩
  · split
    · constructor
      · show (List.map Prod.fst (updateK s.cache _ _)).Nodup
        rw [updateK_map_fst]
        exact hnd
      · intro p hp
        rcases mem_updateK hp with hmem | heq
        · exact Nat.le_succ_of_le (hord p hmem)
        · subst heq
          exact Nat.le_refl _
    · constructor
      · show (List.map Prod.fst (updateK s.cache _ _)).Nodup
        rw [updateK_map_fst]
        exact hnd
      · intro p hp
        rcases mem_updateK hp with hmem | heq
        · exact Nat.le_succ_of_le (hord p hmem)
        · subst heq
          exact Nat.le_refl _

theorem cacheInv_write {s : SharedState} (offset : Nat) (data : List Nat)
    (h : CacheInv s) : CacheInv (write_to_cache s offset data) := by
  obtain ⟨hnd, hord⟩ := h
  have hsub : ((evictLoop s.cache).map Prod.fst).Sublist (s.cache.map Prod.fst) :=
    evictLoopAux_map_fst_sublist _ _
  simp only [CacheInv, write_to_cache]
  constructor
  · simp only [List.map_cons, List.nodup_cons]
    constructor
    · intro hmem
      rcases List.mem_map.1 hmem with ⟨p, hp, hfst⟩
      exact removeK_key_ne hp hfst
    · exact ((removeK_map_fst_sublist _ _).trans hsub).nodup hnd
  · intro p hp
    rcases List.mem_cons.1 hp with heq | hmem
    · subst heq
      exact Nat.le_refl _
    · exact Nat.le_succ_of_le (hord p (mem_evictLoopAux (mem_removeK hmem)))

theorem write_to_cache_length (s : SharedState) (offset : Nat) (data : List Nat) :
    (write_to_cache s offset data).cache.length ≤ MAX_CACHE_BLOCKS := by
  simp only [write_to_cache, List.length_cons]
  have h1 := evictLoop_length s.cache
  have h2 : (removeK (evictLoop s.cache) (cache_block_offset offset)).length ≤
      (evictLoop s.cache).length := by
    simpa [removeK] using List.length_filter_le (fun p => p.1 != cache_block_offset offset) (evictLoop s.cache)
  have h3 : MAX_CACHE_BLOCKS - 1 + 1 = MAX_CACHE_BLOCKS := by decide
  omega

theorem cacheInv_runCacheOps (s : SharedState) (ops : List CacheOp)
    (h : CacheInv s) : CacheInv (runCacheOps s ops) := by
  induction ops generalizing s with
  | nil => exact h
  | cons op rest ih =>
    rw [runCacheOps, List.foldl_cons]
    apply ih
    cases op with
    | insert offset data => exact cacheInv_write offset data h
    | lookup offset size => exact cacheInv_read offset size h

theorem runCacheOps_length (s : SharedState) (ops : List CacheOp)
    (h : s.cache.length ≤ MAX_CACHE_BLOCKS) :
    (runCacheOps s ops).cache.length ≤ MAX_CACHE_BLOCKS := by
  induction ops generalizing s with
  | nil => exact h
  | cons op rest ih =>
    rw [runCacheOps, List.foldl_cons]
    apply ih
    cases op with
    | insert offset data => exact write_to_cache_length s offset data
    | lookup offset size => rw [show applyCacheOp s (CacheOp.lookup offset size) =
        (read_from_cache s offset size).2 from rfl, read_from_cache_length]
                            exact h

theorem cacheInv_new (task_id : Nat) : CacheInv (SharedState.new task_id) := by
  constructor
  · simp [SharedState.new]
  · intro p hp
    simp [SharedState.new] at hp

theorem cache_block_offset_idem (offset : Nat) :
    cache_block_offset (cache_block_offset offset) = cache_block_offset offset := by
  simp only [cache_block_offset]
  rw [Nat.mul_div_cancel _ (by decide : 0 < CACHE_BLOCK_SIZE)]

theorem cache_block_offset_le (offset : Nat) :
    cache_block_offset offset ≤ offset :=
  Nat.div_mul_le_self offset CACHE_BLOCK_SIZE

theorem cache_block_offset_mod (offset : Nat) :
    cache_block_offset offset % CACHE_BLOCK_SIZE = 0 := by
  simp only [cache_block_offset]
  exact Nat.mul_mod_left _ _

theorem write_to_cache_entries {s : SharedState} {offset : Nat}
    {data : List Nat} {p : Nat × CacheEntry}
    (hp : p ∈ (write_to_cache s offset data).cache) :
    p = (cache_block_offset offset, ⟨data, s.access_counter + 1⟩) ∨
      p ∈ s.cache := by
  simp only [write_to_cache] at hp
  rcases List.mem_cons.1 hp with heq | hmem
  · exact Or.inl heq
  · exact Or.inr (mem_evictLoopAux (mem_removeK hmem))

theorem fetch_block_keys_lt {file_size : Nat} {s : SharedState}
    (offset size : Nat) (env : FetchEnv)
    (h : ∀ p ∈ s.cache, p.1 < file_size) :
    ∀ p ∈ ((fetch_block file_size s offset size env).2.1).cache,
      p.1 < file_size := by
  have hrc : ∀ p ∈ ((read_from_cache s offset size).2).cache, p.1 < file_size := by
    intro p hp
    rcases read_from_cache_entries hp with hmem | ⟨e, hl, heq⟩
    · exact h p hmem
    · subst heq
      show cache_block_offset offset < file_size
      exact h (cache_block_offset offset, e) (lookupK_mem hl)
  intro p
  simp only [fetch_block]
  split
  · exact hrc p
  · split
    · exact hrc p
    · rename_i hfz
      have hbo : cache_block_offset offset < file_size := by
        rcases Nat.eq_zero_or_pos (file_size - cache_block_offset offset) with h0 | h0
        · exact absurd (by simp [h0]) hfz
        · omega
      split
      · split
        · exact hrc p
        · exact hrc p
        · split
          · intro hp
            rcases write_to_cache_entries hp with heq | hmem
            · rw [heq]
              simpa [cache_block_offset_idem] using hbo
            · exact hrc p hmem
          · intro hp
            rcases write_to_cache_entries hp with heq | hmem
            · rw [heq]
              simpa [cache_block_offset_idem] using hbo
            · exact hrc p hmem
      · exact hrc p

theorem runFetches_keys_lt (file_size task_id : Nat) (ops : List FetchOp) :
    ∀ p ∈ (runFetches file_size task_id ops).cache, p.1 < file_size := by
  suffices hgen : ∀ s : SharedState, (∀ p ∈ s.cache, p.1 < file_size) →
      ∀ p ∈ (ops.foldl (applyFetchOp file_size) s).cache, p.1 < file_size by
    apply hgen
    intro p hp
    cases hp
  induction ops with
  | nil =>
    intro s h p hp
    exact h p hp
  | cons op rest ih =>
    intro s h
    rw [List.foldl_cons]
    exact ih _ (fetch_block_keys_lt op.offset op.size op.env h)

theorem runCacheOps_aligned (s : SharedState) (ops : List CacheOp)
    (h : ∀ p ∈ s.cache, p.1 % CACHE_BLOCK_SIZE = 0) :
    ∀ p ∈ (runCacheOps s ops).cache, p.1 % CACHE_BLOCK_SIZE = 0 := by
  induction ops generalizing s with
  | nil => exact h
  | cons op rest ih =>
    rw [runCacheOps, List.foldl_cons]
    apply ih
    cases op with
    | insert offset data =>
      intro p hp
      rcases write_to_cache_entries hp with heq | hmem
      · rw [heq]
        exact cache_block_offset_mod offset
      · exact h p hmem
    | lookup offset size =>
      intro p hp
      rcases read_from_cache_entries hp with hmem | ⟨e, hl, heq⟩
      · exact h p hmem
      · rw [heq]
        exact cache_block_offset_mod offset

theorem runCacheOps_data_le (s : SharedState) (ops : List CacheOp)
    (hops : ∀ op ∈ ops, insertLenOk op = true)
    (h : ∀ p ∈ s.cache, p.2.data.length ≤ CACHE_BLOCK_SIZE) :
    ∀ p ∈ (runCacheOps s ops).cache, p.2.data.length ≤ CACHE_BLOCK_SIZE := by
  induction ops generalizing s with
  | nil => exact h
  | cons op rest ih =>
    rw [runCacheOps, List.foldl_cons]
    apply ih
    · intro op2 hop2
      exact hops op2 (List.mem_cons_of_mem _ hop2)
    · cases hop : op with
      | insert offset data =>
        intro p hp
        rcases write_to_cache_entries hp with heq | hmem
        · rw [heq]
          have hlen := hops op (List.mem_cons_self _ _)
          rw [hop] at hlen
          simpa [insertLenOk] using hlen
        · exact h p hmem
      | lookup offset size =>
        intro p hp
        rcases read_from_cache_entries hp with hmem | ⟨e, hl, heq⟩
        · exact h p hmem
        · rw [heq]
          show e.data.length ≤ CACHE_BLOCK_SIZE
          exact h (cache_block_offset offset, e) (lookupK_mem hl)

/-! ### Bit-level lemmas for the request-id addressing scheme -/

theorem two_pow_mul_lor (n : Nat) :
    ∀ t s : Nat, s < 2 ^ n → t * 2 ^ n ||| s = t * 2 ^ n + s := by
  induction n with
  | zero =>
    intro t s hs
    simp only [pow_zero, Nat.lt_one_iff] at hs
    subst hs
    simp
  | succ n ih =>
    intro t s hs
    have h2 : (2 : Nat) ^ (n + 1) = 2 * 2 ^ n := by
      rw [pow_succ, Nat.mul_comm]
    have htu : t * 2 ^ (n + 1) = 2 * (t * 2 ^ n) := by
      rw [h2]
      ring
    have hsdiv : s / 2 < 2 ^ n := by omega
    have hdiv : (t * 2 ^ (n + 1) ||| s) / 2 = t * 2 ^ n + s / 2 := by
      rw [Nat.or_div_two, htu, Nat.mul_div_cancel_left _ (by omega : (0 : Nat) < 2)]
      exact ih t (s / 2) hsdiv
    have hpar : t * 2 ^ (n + 1) % 2 = 0 := by omega
    have hmod : (t * 2 ^ (n + 1) ||| s) % 2 = s % 2 := by
      rcases Nat.mod_two_eq_zero_or_one s with h0 | h1
      · rcases Nat.mod_two_eq_zero_or_one (t * 2 ^ (n + 1) ||| s) with hL | hL
        · omega
        · have hor := Nat.or_mod_two_eq_one.mp hL
          omega
      · have hL : (t * 2 ^ (n + 1) ||| s) % 2 = 1 :=
          Nat.or_mod_two_eq_one.mpr (Or.inr h1)
        omega
    have hL2 := Nat.div_add_mod (t * 2 ^ (n + 1) ||| s) 2
    have hs2 := Nat.div_add_mod s 2
    omega

theorem next_id_eq {s : SharedState} (ht : s.task_id < 2 ^ 16)
    (hseq : s.next_request_seq < 2 ^ 16) :
    (s.next_id).1 = s.task_id * 2 ^ 16 + s.next_request_seq := by
  simp only [SharedState.next_id]
  rw [Nat.shiftLeft_eq]
  have hlt : s.task_id * 2 ^ 16 < 2 ^ 32 := by
    have h1 : s.task_id * 2 ^ 16 < 2 ^ 16 * 2 ^ 16 :=
      (Nat.mul_lt_mul_right (by norm_num)).mpr ht
    calc s.task_id * 2 ^ 16 < 2 ^ 16 * 2 ^ 16 := h1
      _ = 2 ^ 32 := by norm_num
  rw [Nat.mod_eq_of_lt hlt]
  exact two_pow_mul_lor 16 s.task_id s.next_request_seq hseq

theorem next_id_high {s : SharedState} (ht : s.task_id < 2 ^ 16)
    (hseq : s.next_request_seq < 2 ^ 16) :
    (s.next_id).1 >>> 16 = s.task_id := by
  rw [next_id_eq ht hseq, Nat.shiftRight_eq_div_pow]
  have hcomm : s.task_id * 2 ^ 16 + s.next_request_seq =
      2 ^ 16 * s.task_id + s.next_request_seq := by ring
  rw [hcomm, Nat.mul_add_div (by norm_num), Nat.div_eq_of_lt hseq]
  omega

theorem next_task_id_lt (counter : Nat) : (next_task_id counter).1 < 2 ^ 16 := by
  have h := Nat.and_lt_two_pow counter (show (0xFFFF : Nat) < 2 ^ 16 by norm_num)
  simpa [next_task_id] using h

/-! ### Lemmas about completion delivery -/

theorem complete_request_none {st : SharedState} {rid : Nat} (d : FetchReply)
    (h : lookupK st.pending rid = none) :
    st.complete_request rid d = (st, []) := by
  simp only [SharedState.complete_request, h]

theorem complete_request_removes (st : SharedState) (rid : Nat) (d : FetchReply) :
    lookupK ((st.complete_request rid d).1).pending rid = none := by
  simp only [SharedState.complete_request]
  split
  · exact lookupK_removeK_self _ _
  · rename_i h
    exact h

theorem csr_other_sessions (g : GlobalModel) (rid : Nat)
    (d : Option (List Nat)) (e : Option String) {t : Nat}
    (ht : t ≠ rid >>> 16) :
    lookupK ((complete_stream_request g rid d e).1).sessions t =
      lookupK g.sessions t := by
  simp only [complete_stream_request]
  split
  · rfl
  · exact lookupK_updateK_ne _ _ ht

theorem csr_sent (g : GlobalModel) (rid : Nat) (d : Option (List Nat))
    (e : Option String) :
    ∀ m ∈ ((complete_stream_request g rid d e).1).sent,
      m ∈ g.sent ∨
        ∃ st, lookupK g.sessions (rid >>> 16) = some st ∧
          lookupK st.pending rid = some m.1 := by
  simp only [complete_stream_request]
  split
  · intro m hm
    exact Or.inl hm
  · rename_i st hst
    intro m hm
    rcases List.mem_append.1 hm with h | h
    · exact Or.inl h
    · right
      refine ⟨st, hst, ?_⟩
      revert h
      simp only [SharedState.complete_request]
      split
      · rename_i sender hsender
        intro h
        rw [List.mem_singleton] at h
        rw [h]
        exact hsender
      · intro h
        cases h

/-! ### Lemmas about the machine-integer casts of seek -/

theorem u64_as_i64_of_lt {n : Nat} (h : n < 2 ^ 63) :
    u64_as_i64 n = Int.ofNat n := by
  have h64 : n < 2 ^ 64 := lt_trans h (by norm_num)
  simp only [u64_as_i64, Nat.mod_eq_of_lt h64]
  rw [if_pos (by exact_mod_cast h)]

theorem i64_wrap_of_range {x : Int} (h1 : -(2 ^ 63) ≤ x) (h2 : x < 2 ^ 63) :
    i64_wrap x = x := by
  simp only [i64_wrap]
  have h0 : 0 ≤ x + 2 ^ 63 := by omega
  have hlt : x + 2 ^ 63 < 2 ^ 64 := by omega
  rw [Int.emod_eq_of_lt h0 hlt]
  omega

/-! ### Claims -/

/-- C1, counterexample: with a buffer of length 0 and the cursor strictly
before the end of the source, `read` returns without calling the fetch
bridge at all, whereas the claim requires a bridge request of exactly
`min(len(buffer), source_length - position)` bytes on every such call. -/
theorem c1_counterexample :
    0 < 10 ∧
      (readStep 10 0 [] (fun _ _ => Except.ok [1])).requested = none := by
  constructor
  · decide
  · decide

/-- C1, amended: a `read` with `position >= source_length` returns 0 bytes
without touching the bridge; otherwise, with `n` the `u32` truncation of
`min(len(buffer), source_length - position)`, a read with `n = 0` (empty
buffer, or a `2^32` multiple) also returns 0 without touching the bridge,
and a read with `n` nonzero requests exactly `n` bytes from the fetch bridge
at the current position, copies the returned bytes to the start of the
buffer, advances the position by the number of bytes returned and returns
that count, propagating any bridge error.  The bridge is assumed to return
at most the requested number of bytes (true of `fetch_block`). -/
theorem c1_read_amended (file_size position : Nat) (buf : List Nat)
    (bridge : Nat → Nat → Except String (List Nat))
    (hb : ∀ o n d, bridge o n = Except.ok d → d.length ≤ n) :
    (file_size ≤ position →
      readStep file_size position buf bridge =
        ⟨none, ReadOutcome.ok 0 position buf⟩) ∧
    (position < file_size →
      (min buf.length (file_size - position) % 2 ^ 32 = 0 →
        readStep file_size position buf bridge =
          ⟨none, ReadOutcome.ok 0 position buf⟩) ∧
      ∀ n, n = min buf.length (file_size - position) % 2 ^ 32 → n ≠ 0 →
        (readStep file_size position buf bridge).requested = some (position, n) ∧
        (∀ e, bridge position n = Except.error e →
          (readStep file_size position buf bridge).outcome =
            ReadOutcome.ioError e) ∧
        (∀ d, bridge position n = Except.ok d →
          (readStep file_size position buf bridge).outcome =
            ReadOutcome.ok d.length (position + d.length)
              (d ++ List.drop d.length buf))) := by
  constructor
  · intro hge
    simp only [readStep, if_pos hge]
  · intro hlt
    have hnot : ¬ file_size ≤ position := by omega
    constructor
    · intro h0
      simp only [readStep, if_neg hnot, if_pos h0]
    · intro n hn hne
      subst hn
      have hNbuf : min buf.length (file_size - position) % 2 ^ 32 ≤ buf.length :=
        le_trans (Nat.mod_le _ _) (Nat.min_le_left _ _)
      refine ⟨?_, ?_, ?_⟩
      · simp only [readStep, if_neg hnot, if_neg hne]
        cases hbr : bridge position (min buf.length (file_size - position) % 2 ^ 32) with
        | error e => rfl
        | ok d =>
          have hd : d.length ≤ buf.length := le_trans (hb _ _ _ hbr) hNbuf
          dsimp only
          rw [if_pos hd]
      · intro e he
        simp only [readStep, if_neg hnot, if_neg hne, he]
      · intro d hd
        have hlen : d.length ≤ buf.length := le_trans (hb _ _ _ hd) hNbuf
        simp only [readStep, if_neg hnot, if_neg hne, hd, if_pos hlen]

/-- Witness for C1 (the concrete end-of-source scenario of the spec:
`position = 399999`, `source_length = 400000`, a 10-byte buffer, the bridge
returning a single byte). -/
theorem c1_read_amended_witness :
    (readStep 400000 399999 (List.replicate 10 0)
        (fun _ n => Except.ok (List.replicate (min 1 n) 7))).outcome =
      ReadOutcome.ok 1 400000 (7 :: List.replicate 9 0) := by
  have h := (c1_read_amended 400000 399999 (List.replicate 10 0)
      (fun _ n => Except.ok (List.replicate (min 1 n) 7))
      (fun o n d hod => by
        injection hod with h2
        rw [← h2, List.length_replicate]
        exact Nat.min_le_right _ _)).2 (by norm_num)
  have h2 := (h.2 1 (by decide) (by decide)).2.2 [7] rfl
  rw [h2]
  decide

/-- C9, counterexample: `seek(Start, 2^63)` computes the non-negative target
position `2^63`, but the `offset as i64` cast reinterprets it as a negative
value, so the code fails with the invalid-seek error even though the claim
says only negative computed positions fail. -/
theorem c9_counterexample :
    0 ≤ seekSpec 400000 0 (SeekFrom.start (2 ^ 63)) ∧
      seek 400000 0 (SeekFrom.start (2 ^ 63)) =
        Except.error ("Seek to negative position") := by
  constructor
  · decide
  · decide

/-- C9, amended: as long as `file_size`, `position` and the seek target stay
inside the signed 64-bit range (so the `as i64` casts and the `i64` addition
are value-preserving), `seek` supports `Start`, `End` and `Current`
addressing, consults no fetch peer (it is a pure function of the local
state), fails with the invalid-seek error exactly when the arithmetically
computed target is negative, and otherwise — including targets past
`source_length` — returns the computed target as the new position. -/
theorem c9_seek_amended (file_size position : Nat) (pos : SeekFrom)
    (h : SeekInRange file_size position pos) :
    (seekSpec file_size position pos < 0 →
      seek file_size position pos = Except.error ("Seek to negative position")) ∧
    (0 ≤ seekSpec file_size position pos →
      seek file_size position pos =
        Except.ok (seekSpec file_size position pos).toNat) := by
  obtain ⟨hfs, hpos, hcase⟩ := h
  cases pos with
  | start offset =>
    constructor
    · intro hneg
      simp only [seekSpec] at hneg
      exact absurd hneg (Int.ofNat_nonneg offset).not_lt
    · intro hnonneg
      simp only [seek, seekSpec]
      rw [u64_as_i64_of_lt hcase,
        if_neg (show ¬ Int.ofNat offset < 0 from (Int.ofNat_nonneg offset).not_lt)]
  | fromEnd offset =>
    have hw : i64_wrap (u64_as_i64 file_size + offset) =
        Int.ofNat file_size + offset := by
      rw [u64_as_i64_of_lt hfs]
      exact i64_wrap_of_range hcase.1 hcase.2
    constructor
    · intro hneg
      simp only [seekSpec] at hneg
      simp only [seek, hw]
      rw [if_pos hneg]
    · intro hnonneg
      simp only [seekSpec] at hnonneg
      simp only [seek, seekSpec, hw]
      rw [if_neg (by omega)]
  | current offset =>
    have hw : i64_wrap (u64_as_i64 position + offset) =
        Int.ofNat position + offset := by
      rw [u64_as_i64_of_lt hpos]
      exact i64_wrap_of_range hcase.1 hcase.2
    constructor
    · intro hneg
      simp only [seekSpec] at hneg
      simp only [seek, hw]
      rw [if_pos hneg]
    · intro hnonneg
      simp only [seekSpec] at hnonneg
      simp only [seek, seekSpec, hw]
      rw [if_neg (by omega)]

/-- Witness for C9 (the concrete scenario of the spec: `seek(End, -1)` with
`source_length = 400000` lands on position 399999). -/
theorem c9_seek_amended_witness :
    seek 400000 0 (SeekFrom.fromEnd (-1)) = Except.ok 399999 := by
  have h := (c9_seek_amended 400000 0 (SeekFrom.fromEnd (-1))
    (by constructor
        · decide
        · constructor
          · decide
          · constructor
            · decide
            · decide)).2 (by decide)
  rw [h]
  decide

/-- C3: a fetch that misses the cache, has a nonempty block-aligned fetch
window, dispatches its request successfully and never receives a completion
returns the Timeout error after the bounded 30-second wait, and afterwards
the pending-request registry holds no slot for the dispatched request id. -/
theorem c3_timeout (file_size : Nat) (s : SharedState) (offset size : Nat)
    (hmiss : (read_from_cache s offset size).1 = none)
    (hfz : min CACHE_BLOCK_SIZE (file_size - cache_block_offset offset) ≠ 0) :
    (fetch_block file_size s offset size ⟨true, none⟩).1 =
      FetchOutcome.timedOut FETCH_TIMEOUT_SECS ("Timeout waiting for JS response") ∧
    FETCH_TIMEOUT_SECS = 30 ∧
    ∃ r, (fetch_block file_size s offset size ⟨true, none⟩).2.2 = some r ∧
      lookupK ((fetch_block file_size s offset size ⟨true, none⟩).2.1).pending
        r.request_id = none := by
  refine ⟨?_, rfl, ?_⟩
  · simp only [fetch_block, hmiss]
    rw [if_neg hfz]
    rfl
  · simp only [fetch_block, hmiss]
    rw [if_neg hfz]
    refine ⟨_, rfl, ?_⟩
    exact lookupK_removeK_self _ _

/-- Witness for C3: a fresh session with a 400000-byte source, a fetch at
offset 0 that is never answered. -/
theorem c3_timeout_witness :
    (fetch_block 400000 (SharedState.new 0) 0 100 ⟨true, none⟩).1 =
      FetchOutcome.timedOut FETCH_TIMEOUT_SECS ("Timeout waiting for JS response") ∧
    FETCH_TIMEOUT_SECS = 30 ∧
    ∃ r, (fetch_block 400000 (SharedState.new 0) 0 100 ⟨true, none⟩).2.2 = some r ∧
      lookupK ((fetch_block 400000 (SharedState.new 0) 0 100 ⟨true, none⟩).2.1).pending
        r.request_id = none :=
  c3_timeout 400000 (SharedState.new 0) 0 100 (by decide) (by decide)

/-- C6, counterexample: delivering an empty byte sequence for a cache-missing
fetch at offset 1 drives the answer sub-range computation out of bounds: the
Rust slice `data[1..1]` on an empty vector panics, so the indexing is not
well defined for every delivered data length. -/
theorem c6_counterexample :
    (fetch_block 100 (SharedState.new 0) 1 1
      ⟨true, some (FetchReply.ok [])⟩).1 = FetchOutcome.panicked := by
  decide

/-- C6, amended: for a delivered completion with data, the answer sub-range
`[offset - fetch_offset, offset - fetch_offset + min(size, len(data) -
(offset - fetch_offset)))` is well defined and in bounds exactly when the
delivered data covers `offset - fetch_offset` (i.e. `offset - fetch_offset ≤
len(data)`), in which case the fetch returns that sub-range; for strictly
shorter delivered data the slice start exceeds `len(data)` and the code
panics. -/
theorem c6_subrange_amended (file_size : Nat) (s : SharedState)
    (offset size : Nat) (data : List Nat)
    (hmiss : (read_from_cache s offset size).1 = none)
    (hfz : min CACHE_BLOCK_SIZE (file_size - cache_block_offset offset) ≠ 0) :
    (offset - cache_block_offset offset ≤ data.length →
      (fetch_block file_size s offset size ⟨true, some (FetchReply.ok data)⟩).1 =
        FetchOutcome.ok (List.take
          (min size (data.length - (offset - cache_block_offset offset)))
          (List.drop (offset - cache_block_offset offset) data)) ∧
      (offset - cache_block_offset offset) +
          min size (data.length - (offset - cache_block_offset offset)) ≤
        data.length) ∧
    (data.length < offset - cache_block_offset offset →
      (fetch_block file_size s offset size ⟨true, some (FetchReply.ok data)⟩).1 =
        FetchOutcome.panicked) := by
  constructor
  · intro hle
    have hbound : (offset - cache_block_offset offset) +
        min size (data.length - (offset - cache_block_offset offset)) ≤
          data.length := by
      omega
    refine ⟨?_, hbound⟩
    simp only [fetch_block, hmiss]
    rw [if_neg hfz, if_pos hbound]
    rfl
  · intro hgt
    have hbound : ¬ ((offset - cache_block_offset offset) +
        min size (data.length - (offset - cache_block_offset offset)) ≤
          data.length) := by
      omega
    simp only [fetch_block, hmiss]
    rw [if_neg hfz, if_neg hbound]
    rfl

set_option maxRecDepth 4000 in
/-- Witness for C6: a fetch at offset 100 with 200 delivered bytes returns
the 10 requested bytes starting at index 100 of the delivered block. -/
theorem c6_subrange_amended_witness :
    (fetch_block 400000 (SharedState.new 0) 100 10
        ⟨true, some (FetchReply.ok (List.replicate 200 3))⟩).1 =
      FetchOutcome.ok (List.replicate 10 3) := by
  have h := (c6_subrange_amended 400000 (SharedState.new 0) 100 10
      (List.replicate 200 3) (by decide) (by decide)).1 (by decide)
  rw [h.1]
  decide

/-- C7, counterexample: with `source_length = 50`, a cache-missing fetch at
offset 100 — at or beyond the end of the source, but inside block 0, which
starts before the end — does not fail with ShortRead: it dispatches an
outbound request for block 0 of size 50 (and here times out). -/
theorem c7_counterexample :
    50 ≤ 100 ∧
    (fetch_block 50 (SharedState.new 0) 100 10 ⟨true, none⟩).1 =
      FetchOutcome.timedOut 30 ("Timeout waiting for JS response") ∧
    (fetch_block 50 (SharedState.new 0) 100 10 ⟨true, none⟩).2.2 =
      some ⟨0, 50, 0⟩ := by
  refine ⟨by decide, by decide, by decide⟩

/-- C7, amended: a cache-missing fetch fails with ShortRead if and only if
the block-aligned fetch window collapses to zero bytes, i.e. iff
`block_offset ≥ source_length`; this implies the requested offset is at or
beyond the end of the source (but not conversely: an offset past the end
whose containing block starts before the end dispatches a fetch instead).
On ShortRead no outbound request is dispatched and the pending registry is
left untouched. -/
theorem c7_short_read_amended (file_size : Nat) (s : SharedState)
    (offset size : Nat) (env : FetchEnv)
    (hmiss : (read_from_cache s offset size).1 = none) :
    ((fetch_block file_size s offset size env).1 =
        FetchOutcome.shortRead ("fetch_size is 0") ↔
      file_size ≤ cache_block_offset offset) ∧
    (file_size ≤ cache_block_offset offset →
      file_size ≤ offset ∧
      (fetch_block file_size s offset size env).2.2 = none ∧
      ((fetch_block file_size s offset size env).2.1).pending = s.pending) := by
  have hiff : min CACHE_BLOCK_SIZE (file_size - cache_block_offset offset) = 0 ↔
      file_size ≤ cache_block_offset offset := by
    have hcbs : CACHE_BLOCK_SIZE ≠ 0 := by decide
    omega
  constructor
  · constructor
    · intro hsr
      by_contra hnot
      have hfz : ¬ (min CACHE_BLOCK_SIZE
          (file_size - cache_block_offset offset) = 0) :=
        fun hh => hnot (hiff.1 hh)
      simp only [fetch_block, hmiss] at hsr
      rw [if_neg hfz] at hsr
      split at hsr
      · split at hsr
        · simp at hsr
        · simp at hsr
        · split at hsr
          · simp at hsr
          · simp at hsr
      · simp at hsr
    · intro h
      have hfz := hiff.2 h
      simp only [fetch_block, hmiss]
      rw [if_pos hfz]
  · intro h
    have hfz := hiff.2 h
    refine ⟨le_trans h (cache_block_offset_le offset), ?_, ?_⟩
    · simp only [fetch_block, hmiss]
      rw [if_pos hfz]
    · simp only [fetch_block, hmiss]
      rw [if_pos hfz]
      exact (read_from_cache_fields s offset size).1

/-- Witness for C7: offset 262144 with a 50-byte source short-reads without
registering anything. -/
theorem c7_short_read_amended_witness :
    (fetch_block 50 (SharedState.new 0) 262144 10 ⟨true, none⟩).1 =
      FetchOutcome.shortRead ("fetch_size is 0") ∧
    ((fetch_block 50 (SharedState.new 0) 262144 10 ⟨true, none⟩).2.1).pending = [] := by
  have h := c7_short_read_amended 50 (SharedState.new 0) 262144 10 ⟨true, none⟩
    (by decide)
  constructor
  · exact h.1.2 (by decide)
  · exact (h.2 (by decide)).2.2

/-- C2: after any sequence of cache inserts and lookups from a fresh
session, the block cache holds at most `MAX_CACHE_BLOCKS` (64) entries, and
whenever an insert finds the cache at capacity, the evicted entry is one
with the smallest `access_order` at eviction time while the inserted entry
receives a fresh, strictly larger `access_order`. -/
theorem c2_cache_capacity_lru (task_id : Nat) (ops : List CacheOp) :
    (runCacheOps (SharedState.new task_id) ops).cache.length ≤ MAX_CACHE_BLOCKS ∧
    ∀ offset data,
      MAX_CACHE_BLOCKS ≤ (runCacheOps (SharedState.new task_id) ops).cache.length →
      EvictionSpec (runCacheOps (SharedState.new task_id) ops) offset data := by
  have hinv := cacheInv_runCacheOps (SharedState.new task_id) ops (cacheInv_new task_id)
  have hlen := runCacheOps_length (SharedState.new task_id) ops
    (by simp [SharedState.new])
  refine ⟨hlen, ?_⟩
  intro offset data hcap
  have hlen64 : (runCacheOps (SharedState.new task_id) ops).cache.length =
      MAX_CACHE_BLOCKS := le_antisymm hlen hcap
  have hne : (runCacheOps (SharedState.new task_id) ops).cache ≠ [] := by
    intro h
    rw [h] at hlen64
    exact absurd hlen64 (by decide)
  obtain ⟨victim, hvm⟩ := minByAccess_isSome hne
  refine ⟨victim, hvm, minByAccess_mem hvm, ?_, ?_⟩
  · intro q hq
    refine ⟨minByAccess_le hvm q hq, ?_⟩
    have hord := hinv.2 q hq
    have hctr : (write_to_cache (runCacheOps (SharedState.new task_id) ops)
        offset data).access_counter =
        (runCacheOps (SharedState.new task_id) ops).access_counter + 1 := rfl
    omega
  · simp only [write_to_cache]
    rw [evictLoop_at_cap hlen64 hinv.1 hvm]

set_option maxRecDepth 100000 in
/-- Witness for C2: sixty-four inserts at distinct block offsets fill the
cache to capacity; a further insert evicts the least recently used block. -/
theorem c2_cache_capacity_lru_witness :
    (runCacheOps (SharedState.new 0) ((List.range 64).map
        (fun i => CacheOp.insert (i * CACHE_BLOCK_SIZE) []))).cache.length ≤
      MAX_CACHE_BLOCKS ∧
    EvictionSpec (runCacheOps (SharedState.new 0) ((List.range 64).map
        (fun i => CacheOp.insert (i * CACHE_BLOCK_SIZE) []))) 0 [5] := by
  have h := c2_cache_capacity_lru 0 ((List.range 64).map
    (fun i => CacheOp.insert (i * CACHE_BLOCK_SIZE) []))
  exact ⟨h.1, h.2 0 [5] (by decide)⟩

/-- Helper for the C8 counterexample: on a cache miss with a nonempty fetch
window, the delivered data is stored in the cache verbatim at the
block-aligned offset. -/
theorem fetch_block_delivered_cache (file_size : Nat) (s : SharedState)
    (offset size : Nat) (data : List Nat)
    (hmiss : (read_from_cache s offset size).1 = none)
    (hfz : min CACHE_BLOCK_SIZE (file_size - cache_block_offset offset) ≠ 0) :
    ((fetch_block file_size s offset size
        ⟨true, some (FetchReply.ok data)⟩).2.1).cache =
      (cache_block_offset offset,
          ⟨data, (read_from_cache s offset size).2.access_counter + 1⟩) ::
        removeK (evictLoop ((read_from_cache s offset size).2).cache)
          (cache_block_offset offset) := by
  simp only [fetch_block, hmiss]
  rw [if_neg hfz]
  simp only [if_true]
  split
  · simp only [write_to_cache, cache_block_offset_idem]
    rfl
  · simp only [write_to_cache, cache_block_offset_idem]
    rfl

/-- C8, counterexample: the completion entrypoint can deliver more bytes
than the requested fetch window; `fetch_block` caches the delivered data
unchanged, so a stored block of `CACHE_BLOCK_SIZE + 1` bytes violates the
claimed length bound. -/
theorem c8_counterexample :
    ∃ p, p ∈ ((fetch_block 400000 (SharedState.new 0) 0 100
        ⟨true, some (FetchReply.ok
          (List.replicate (CACHE_BLOCK_SIZE + 1) 7))⟩).2.1).cache ∧
      CACHE_BLOCK_SIZE < p.2.data.length := by
  have hc := fetch_block_delivered_cache 400000 (SharedState.new 0) 0 100
    (List.replicate (CACHE_BLOCK_SIZE + 1) 7) (by decide) (by decide)
  refine ⟨(cache_block_offset 0,
    ⟨List.replicate (CACHE_BLOCK_SIZE + 1) 7,
      (read_from_cache (SharedState.new 0) 0 100).2.access_counter + 1⟩), ?_, ?_⟩
  · rw [hc]
    exact List.mem_cons_self _ _
  · simp only [List.length_replicate]
    omega

/-- C8, amended: every outbound fetch request asks for at most
`CACHE_BLOCK_SIZE` bytes; after any sequence of cache operations every
stored block is keyed by a multiple of `CACHE_BLOCK_SIZE` — unconditionally,
even when oversized data was inserted; and provided every insert stores data
of at most `CACHE_BLOCK_SIZE` bytes (which a fetch peer honouring the
requested sizes guarantees) every stored block also holds at most
`CACHE_BLOCK_SIZE` bytes.  Only the length bound needs the proviso, since
delivered data is cached verbatim. -/
theorem c8_cache_block_invariant_amended :
    (∀ file_size s offset size env r,
      (fetch_block file_size s offset size env).2.2 = some r →
        r.size ≤ CACHE_BLOCK_SIZE) ∧
    ∀ task_id (ops : List CacheOp),
      (∀ p ∈ (runCacheOps (SharedState.new task_id) ops).cache,
        p.1 % CACHE_BLOCK_SIZE = 0) ∧
      ((∀ op ∈ ops, insertLenOk op = true) →
        ∀ p ∈ (runCacheOps (SharedState.new task_id) ops).cache,
          p.2.data.length ≤ CACHE_BLOCK_SIZE) := by
  constructor
  · intro file_size s offset size env r hr
    revert hr
    simp only [fetch_block]
    split
    · intro hr
      cases hr
    · split
      · intro hr
        cases hr
      · split
        · split
          · intro hr
            injection hr with hr
            rw [← hr]
            exact Nat.min_le_left _ _
          · intro hr
            injection hr with hr
            rw [← hr]
            exact Nat.min_le_left _ _
          · split
            · intro hr
              injection hr with hr
              rw [← hr]
              exact Nat.min_le_left _ _
            · intro hr
              injection hr with hr
              rw [← hr]
              exact Nat.min_le_left _ _
        · intro hr
          injection hr with hr
          rw [← hr]
          exact Nat.min_le_left _ _
  · intro task_id ops
    constructor
    · exact runCacheOps_aligned (SharedState.new task_id) ops
        (by intro q hq; cases hq)
    · intro hops
      exact runCacheOps_data_le (SharedState.new task_id) ops hops
        (by intro q hq; cases hq)

/-- Witness for C8: a concrete dispatched request respects the block size;
the single entry stored by an insert at the unaligned offset 300000 is keyed
at the aligned offset 262144; and a concrete bounded insert stores a block
within the length bound. -/
theorem c8_cache_block_invariant_amended_witness :
    (⟨0, 50, 0⟩ : BlockRequest).size ≤ CACHE_BLOCK_SIZE ∧
    ((262144 : Nat), (⟨[9], 1⟩ : CacheEntry)).1 % CACHE_BLOCK_SIZE = 0 ∧
    ((262144 : Nat), (⟨[1, 2, 3], 1⟩ : CacheEntry)).2.data.length ≤
      CACHE_BLOCK_SIZE := by
  have h := c8_cache_block_invariant_amended
  refine ⟨h.1 50 (SharedState.new 0) 100 10 ⟨true, none⟩ ⟨0, 50, 0⟩ (by decide),
    ?_, ?_⟩
  · exact (h.2 0 [CacheOp.insert 300000 [9]]).1 (262144, ⟨[9], 1⟩) (by decide)
  · exact (h.2 0 [CacheOp.insert 262144 [1, 2, 3]]).2 (by decide)
      (262144, ⟨[1, 2, 3], 1⟩) (by decide)

/-- Helper: a lookup that finds a stored block too short to cover the
requested offset reports a miss but bumps the block's LRU stamp. -/
theorem read_from_cache_short {s : SharedState} {offset : Nat} (size : Nat)
    {entry : CacheEntry}
    (hlook : lookupK s.cache (cache_block_offset offset) = some entry)
    (hshort : entry.data.length ≤ offset - cache_block_offset offset) :
    read_from_cache s offset size =
      (none, { s with
        cache := updateK s.cache (cache_block_offset offset)
          ⟨entry.data, s.access_counter + 1⟩,
        access_counter := s.access_counter + 1 }) := by
  have hz : entry.data.length - (offset - cache_block_offset offset) = 0 := by
    omega
  simp only [read_from_cache, hlook, hz]
  rw [if_neg (by simp)]

/-- Helper: on a cache miss with a nonempty fetch window, `fetch_block`
increments the miss and request counters once each (whatever the dispatch
and delivery behaviour) and passes a block-aligned request to the fetcher. -/
theorem fetch_block_miss_stats (file_size : Nat) (s : SharedState)
    (offset size : Nat) (env : FetchEnv)
    (hmiss : (read_from_cache s offset size).1 = none)
    (hfz : min CACHE_BLOCK_SIZE (file_size - cache_block_offset offset) ≠ 0) :
    ((fetch_block file_size s offset size env).2.1).stats.cache_misses =
      ((read_from_cache s offset size).2).stats.cache_misses + 1 ∧
    ((fetch_block file_size s offset size env).2.1).stats.total_requests =
      ((read_from_cache s offset size).2).stats.total_requests + 1 ∧
    ∃ rid, (fetch_block file_size s offset size env).2.2 =
      some ⟨cache_block_offset offset,
        min CACHE_BLOCK_SIZE (file_size - cache_block_offset offset), rid⟩ := by
  simp only [fetch_block, hmiss]
  rw [if_neg hfz]
  split
  · split
    · exact ⟨rfl, rfl, _, rfl⟩
    · exact ⟨rfl, rfl, _, rfl⟩
    · split
      · exact ⟨rfl, rfl, _, rfl⟩
      · exact ⟨rfl, rfl, _, rfl⟩
  · exact ⟨rfl, rfl, _, rfl⟩

/-- C10: in any reachable session state, if the cache holds a block at the
offset's aligned block offset whose data is too short to cover the offset,
the lookup reports a miss rather than an empty byte sequence — no cache hit
is counted although the block's `access_order` is bumped — and the fetch
then counts a cache miss and a total request and dispatches a fresh
outbound request for that same block. -/
theorem c10_short_block_refetch (file_size task_id : Nat) (ops : List FetchOp)
    (offset size : Nat) (env : FetchEnv) (entry : CacheEntry)
    (hlook : lookupK (runFetches file_size task_id ops).cache
      (cache_block_offset offset) = some entry)
    (hshort : entry.data.length ≤ offset - cache_block_offset offset) :
    MissOnShortBlock file_size (runFetches file_size task_id ops)
      offset size env entry := by
  have hklt : cache_block_offset offset < file_size :=
    runFetches_keys_lt file_size task_id ops
      (cache_block_offset offset, entry) (lookupK_mem hlook)
  have hfz : min CACHE_BLOCK_SIZE (file_size - cache_block_offset offset) ≠ 0 := by
    have hcbs : CACHE_BLOCK_SIZE ≠ 0 := by decide
    omega
  have hrfc := read_from_cache_short size hlook hshort
  have hmiss : (read_from_cache (runFetches file_size task_id ops) offset size).1 =
      none := by
    rw [hrfc]
  have hstats := fetch_block_miss_stats file_size
    (runFetches file_size task_id ops) offset size env hmiss hfz
  refine ⟨hmiss, ?_, ?_, ?_, ?_, ?_, ?_⟩
  · rw [hrfc]
  · rw [hrfc]
    exact lookupK_updateK_self hlook
  · rw [hrfc]
  · rw [hstats.1, hrfc]
  · rw [hstats.2.1, hrfc]
  · obtain ⟨rid, hreq⟩ := hstats.2.2
    exact ⟨rid, hreq, by omega⟩

set_option maxRecDepth 8000 in
/-- Witness for C10: after one fetch that cached a single-byte block at
offset 262144, a fetch at offset 262145 misses (the cached block is too
short), bumps the block, and dispatches a fresh request for the same
block. -/
theorem c10_short_block_refetch_witness :
    MissOnShortBlock 400000
      (runFetches 400000 0 [⟨262144, 1, ⟨true, some (FetchReply.ok [7])⟩⟩])
      262145 5 ⟨true, none⟩ ⟨[7], 1⟩ :=
  c10_short_block_refetch 400000 0
    [⟨262144, 1, ⟨true, some (FetchReply.ok [7])⟩⟩]
    262145 5 ⟨true, none⟩ ⟨[7], 1⟩ (by decide) (by decide)

/-- Helper: a delivery with no registered slot changes nothing and reports
success. -/
theorem csr_noop {g : GlobalModel} {request_id : Nat}
    (data : Option (List Nat)) (error : Option String)
    (hnd : (g.sessions.map Prod.fst).Nodup) (hns : NoSlot g request_id) :
    complete_stream_request g request_id data error = (g, Except.ok ()) := by
  simp only [complete_stream_request]
  split
  · rfl
  · rename_i st hst
    have hpend := hns st hst
    rw [complete_request_none _ hpend]
    dsimp only
    rw [updateK_eq_self hnd hst, List.append_nil]

/-- Helper: delivery preserves the set of registered task ids. -/
theorem csr_sessions_map_fst (g : GlobalModel) (request_id : Nat)
    (data : Option (List Nat)) (error : Option String) :
    ((complete_stream_request g request_id data error).1).sessions.map Prod.fst =
      g.sessions.map Prod.fst := by
  simp only [complete_stream_request]
  split
  · rfl
  · exact updateK_map_fst _ _ _

/-- Helper: after any delivery, the delivered request id has no pending slot
left in the addressed session. -/
theorem csr_noslot_after (g : GlobalModel) (request_id : Nat)
    (data : Option (List Nat)) (error : Option String) :
    NoSlot (complete_stream_request g request_id data error).1 request_id := by
  intro st hst
  revert hst
  simp only [complete_stream_request]
  split
  · rename_i hnone
    intro hst
    rw [hnone] at hst
    cases hst
  · rename_i st0 hst0
    intro hst
    rw [lookupK_updateK_self hst0] at hst
    injection hst with hst
    rw [← hst]
    exact complete_request_removes st0 request_id _

/-- C4: delivering a completion for a request id that has no registered
pending slot — session absent from the registry, or id unknown, already
delivered or deregistered by timeout — returns success and leaves the whole
registry state (every session's cache, stats and pending map, and the log of
messages sent into slots) unchanged; every delivery returns success; and a
second delivery for the same id right after a first one has no effect, so
the first delivery wins. -/
theorem c4_unknown_completion_noop (g : GlobalModel) (request_id : Nat)
    (data : Option (List Nat)) (error : Option String)
    (hnd : (g.sessions.map Prod.fst).Nodup) :
    (NoSlot g request_id →
      complete_stream_request g request_id data error = (g, Except.ok ())) ∧
    (complete_stream_request g request_id data error).2 = Except.ok () ∧
    complete_stream_request
        (complete_stream_request g request_id data error).1 request_id data error =
      ((complete_stream_request g request_id data error).1, Except.ok ()) := by
  refine ⟨fun hns => csr_noop data error hnd hns, ?_, ?_⟩
  · simp only [complete_stream_request]
    split
    · rfl
    · rfl
  · apply csr_noop data error
    · rw [csr_sessions_map_fst]
      exact hnd
    · exact csr_noslot_after g request_id data error

/-- Witness for C4: delivering to request id 5 when session 0 has no
pending requests is a no-op that reports success. -/
theorem c4_unknown_completion_noop_witness :
    complete_stream_request ⟨[(0, SharedState.new 0)], []⟩ 5 (some [1]) none =
      (⟨[(0, SharedState.new 0)], []⟩, Except.ok ()) ∧
    (complete_stream_request ⟨[(0, SharedState.new 0)], []⟩ 5 (some [1]) none).2 =
      Except.ok () := by
  have h := c4_unknown_completion_noop ⟨[(0, SharedState.new 0)], []⟩ 5
    (some [1]) none (by decide)
  refine ⟨h.1 ?_, h.2.1⟩
  intro st hst
  injection hst with hst
  rw [← hst]
  rfl

/-- C5: task ids handed out by `next_task_id` are 16-bit; for a session
whose 16-bit task id is `t1` and whose 16-bit sequence counter is live,
`next_id` composes `(t1 << 16) | seq`, post-increments the sequence with
16-bit wraparound, and the produced request id has high 16 bits exactly
`t1` — in particular not any distinct task id `t2` — and delivering a
completion for that id leaves the session registered under `t2` untouched
and sends messages only into slots registered (under that id) in the
session addressed by `t1`. -/
theorem c5_request_id_routing :
    (∀ counter, (next_task_id counter).1 < 2 ^ 16) ∧
    ∀ (s1 : SharedState) (t1 t2 : Nat), s1.task_id = t1 → t1 < 2 ^ 16 →
      t2 < 2 ^ 16 → t1 ≠ t2 → s1.next_request_seq < 2 ^ 16 →
      ((s1.next_id).1 = t1 * 2 ^ 16 + s1.next_request_seq ∧
       (s1.next_id).2.next_request_seq = (s1.next_request_seq + 1) % 2 ^ 16 ∧
       (s1.next_id).1 >>> 16 = t1 ∧
       (s1.next_id).1 >>> 16 ≠ t2) ∧
      ∀ (g : GlobalModel) (d : Option (List Nat)) (e : Option String),
        lookupK ((complete_stream_request g (s1.next_id).1 d e).1).sessions t2 =
          lookupK g.sessions t2 ∧
        ∀ m ∈ ((complete_stream_request g (s1.next_id).1 d e).1).sent,
          m ∈ g.sent ∨
            ∃ st, lookupK g.sessions t1 = some st ∧
              lookupK st.pending (s1.next_id).1 = some m.1 := by
  refine ⟨next_task_id_lt, ?_⟩
  intro s1 t1 t2 hst1 ht1 ht2 hne hseq
  subst hst1
  have hhigh := next_id_high ht1 hseq
  have heq := next_id_eq ht1 hseq
  refine ⟨⟨heq, rfl, hhigh, by rw [hhigh]; exact hne⟩, ?_⟩
  intro g d e
  constructor
  · exact csr_other_sessions g _ d e (by rw [hhigh]; exact Ne.symm hne)
  · intro m hm
    rcases csr_sent g _ d e m hm with h | ⟨st, hst, hp⟩
    · exact Or.inl h
    · right
      rw [hhigh] at hst
      exact ⟨st, hst, hp⟩

/-- Witness for C5: sessions 1 and 2; the first request id of session 1 is
65536, routes to task id 1, and delivering it leaves session 2 intact. -/
theorem c5_request_id_routing_witness :
    ((SharedState.new 1).next_id).1 = 65536 ∧
    ((SharedState.new 1).next_id).1 >>> 16 = 1 ∧
    lookupK ((complete_stream_request
        ⟨[(1, SharedState.new 1), (2, SharedState.new 2)], []⟩
        ((SharedState.new 1).next_id).1 (some [1]) none).1).sessions 2 =
      some (SharedState.new 2) := by
  have h := c5_request_id_routing.2 (SharedState.new 1) 1 2 rfl (by decide)
    (by decide) (by decide) (by decide)
  refine ⟨?_, h.1.2.2.1, ?_⟩
  · rw [h.1.1]
    decide
  · have h2 := (h.2 ⟨[(1, SharedState.new 1), (2, SharedState.new 2)], []⟩
      (some [1]) none).1
    rw [h2]
    decide

end NodePdf2Img
